import Mathlib

/-!
Shallow embedding of the `llm-code-deployment` repository and proofs about it.

The JavaScript source is embedded as executable Lean definitions:
asynchronous network calls become explicit outcome parameters (a function
from the attempt index to the outcome the call would have on that attempt),
`setTimeout` waits become accumulated sleep-second counters, thrown
exceptions become `Except.error`, and the process-wide `Map`s of the task
handler become association lists threaded through the functions.
-/

set_option maxRecDepth 4096

/-! ## Backoff retrier (`src/utils/retryRequest.js`, `retryRequest`) -/

/-- Outcome record of a `retryRequest` run: the value returned or error
thrown, the total seconds slept across backoff waits, and how many times the
operation was invoked. -/
structure RetryResult (α : Type) where
  result : Except String α
  sleepSeconds : Nat
  invocations : Nat

/-- The wrapped error thrown after the final failed attempt:
`Failed after N attempts: <last error>`. -/
def wrapError (maxRetries : Nat) (lastMsg : String) : String :=
  "Failed after " ++ toString maxRetries ++ " attempts: " ++ lastMsg

/-- The `for (let attempt = 1; attempt <= maxRetries; attempt++)` loop of
`retryRequest`.  `attempt` is the 1-based attempt counter, the second `Nat`
is the number of attempts remaining (`maxRetries - attempt + 1`), and the
`String` is the message of `lastError`.  On failure of a non-final attempt
the loop sleeps `initialDelay * 2 ^ (attempt - 1)` seconds; on failure of
the final attempt it breaks without sleeping and throws the wrapped error. -/
def retryGo {α : Type} (op : Nat → Except String α) (maxRetries initialDelay : Nat) :
    Nat → Nat → String → RetryResult α
  | _, 0, lastMsg =>
    -- Loop body never ran (only reachable when `maxRetries = 0`); the JS
    -- would then throw reading `lastError.message` of `undefined`.
    ⟨Except.error (wrapError maxRetries lastMsg), 0, 0⟩
  | attempt, rem + 1, _ =>
    match op attempt with
    | Except.ok v => ⟨Except.ok v, 0, 1⟩
    | Except.error e =>
      if rem = 0 then
        ⟨Except.error (wrapError maxRetries e), 0, 1⟩
      else
        let r := retryGo op maxRetries initialDelay (attempt + 1) rem e
        ⟨r.result, initialDelay * 2 ^ (attempt - 1) + r.sleepSeconds, r.invocations + 1⟩

/-- `retryRequest(requestFn, maxRetries, initialDelay)`.  The operation is
embedded as a function from the 1-based attempt number to the outcome the
request would have on that attempt. -/
def retryRequest {α : Type} (op : Nat → Except String α) (maxRetries initialDelay : Nat) :
    RetryResult α :=
  retryGo op maxRetries initialDelay 1 maxRetries "undefined"

/-! ## Secret verification (`verifySecret`) -/

/-- JavaScript truthiness of an optional environment-variable string:
`undefined` and the empty string are falsy. -/
def jsTruthyStr : Option String → Bool
  | none => false
  | some s => !s.isEmpty

/-- `verifySecret(providedSecret)` with the environment made explicit:
`userSecret` is `process.env.USER_SECRET`, `nodeEnv` is
`process.env.NODE_ENV`.  When no expected secret is configured, returns
`true` exactly in development mode; otherwise compares the provided secret
with the expected one. -/
def verifySecret (userSecret nodeEnv : Option String) (provided : String) : Bool :=
  if jsTruthyStr userSecret = false then
    nodeEnv = some "development"
  else
    provided = userSecret.getD ""

/-! ### Retrier lemmas -/

lemma retryGo_always_fail {α : Type} (op : Nat → Except String α) (M d : Nat)
    (e : Nat → String) (hop : ∀ i, op i = Except.error (e i)) :
    ∀ rem attempt e₀, 1 ≤ rem → 1 ≤ attempt →
      retryGo op M d attempt rem e₀ =
        ⟨Except.error (wrapError M (e (attempt + rem - 1))),
         ∑ i ∈ Finset.range (rem - 1), d * 2 ^ (attempt - 1 + i), rem⟩ := by
  intro rem
  induction rem with
  | zero => intro attempt e₀ h; omega
  | succ rem ih =>
    intro attempt e₀ _ hatt
    rw [retryGo]
    rw [hop attempt]
    by_cases hrem : rem = 0
    · subst hrem
      simp
    · have h1 : 1 ≤ rem := Nat.one_le_iff_ne_zero.mpr hrem
      simp only [if_neg hrem]
      rw [ih (attempt + 1) (e attempt) h1 (by omega)]
      have hidx : attempt + 1 + rem - 1 = attempt + (rem + 1) - 1 := by omega
      have hsum : d * 2 ^ (attempt - 1) +
          ∑ i ∈ Finset.range (rem - 1), d * 2 ^ (attempt + 1 - 1 + i) =
          ∑ i ∈ Finset.range (rem + 1 - 1), d * 2 ^ (attempt - 1 + i) := by
        have hr : rem + 1 - 1 = (rem - 1) + 1 := by omega
        rw [hr, Finset.sum_range_succ']
        have hfix : ∀ i : Nat, attempt - 1 + (i + 1) = attempt + 1 - 1 + i := by
          intro i; omega
        simp only [hfix, Nat.add_zero]
        omega
      rw [RetryResult.mk.injEq]
      refine ⟨by rw [hidx], by rw [hsum], rfl⟩

lemma retryGo_first_success {α : Type} (op : Nat → Except String α) (M d : Nat) (v : α) :
    ∀ k rem attempt e₀, 1 ≤ attempt → k < rem →
      (∀ j, j < k → ∃ e, op (attempt + j) = Except.error e) →
      op (attempt + k) = Except.ok v →
      retryGo op M d attempt rem e₀ =
        ⟨Except.ok v, ∑ i ∈ Finset.range k, d * 2 ^ (attempt - 1 + i), k + 1⟩ := by
  intro k
  induction k with
  | zero =>
    intro rem attempt e₀ _ hlt _ hok
    obtain ⟨rem', rfl⟩ : ∃ rem', rem = rem' + 1 := ⟨rem - 1, by omega⟩
    rw [retryGo]
    simp only [Nat.add_zero] at hok
    rw [hok]
    simp
  | succ k ih =>
    intro rem attempt e₀ _ hlt hfail hok
    obtain ⟨rem', rfl⟩ : ∃ rem', rem = rem' + 1 := ⟨rem - 1, by omega⟩
    obtain ⟨e0, he0⟩ := hfail 0 (Nat.succ_pos k)
    rw [retryGo]
    simp only [Nat.add_zero] at he0
    rw [he0]
    have hrem' : rem' ≠ 0 := by omega
    simp only [if_neg hrem']
    rw [ih rem' (attempt + 1) e0 (by omega) (by omega)
      (fun j hj => by
        obtain ⟨e, he⟩ := hfail (j + 1) (by omega)
        exact ⟨e, by rw [← he]; congr 1; omega⟩)
      (by rw [← hok]; congr 1; omega)]
    have hsum : d * 2 ^ (attempt - 1) +
        ∑ i ∈ Finset.range k, d * 2 ^ (attempt + 1 - 1 + i) =
        ∑ i ∈ Finset.range (k + 1), d * 2 ^ (attempt - 1 + i) := by
      rw [Finset.sum_range_succ']
      have hfix : ∀ i : Nat, attempt - 1 + (i + 1) = attempt + 1 - 1 + i := by
        intro i; omega
      simp only [hfix, Nat.add_zero]
      omega
    rw [RetryResult.mk.injEq]
    exact ⟨rfl, by rw [hsum], rfl⟩

/-- C2: the retrier either returns the first success, having slept the
exponential-backoff schedule for each preceding failure, or, when every
attempt fails, invokes the operation exactly `maxAttempts` times, does not
sleep after the final failure, and throws a wrapped error embedding the
attempt count and the last underlying failure. -/
theorem retryRequest_spec {α : Type} (op : Nat → Except String α) (M d : Nat)
    (hM : 1 ≤ M) :
    (∀ k v, k < M → (∀ i, 1 ≤ i → i ≤ k → ∃ e, op i = Except.error e) →
      op (k + 1) = Except.ok v →
      retryRequest op M d = ⟨Except.ok v, ∑ i ∈ Finset.range k, d * 2 ^ i, k + 1⟩) ∧
    (∀ e : Nat → String, (∀ i, op i = Except.error (e i)) →
      retryRequest op M d =
        ⟨Except.error (wrapError M (e M)), ∑ i ∈ Finset.range (M - 1), d * 2 ^ i, M⟩) := by
  constructor
  · intro k v hk hfail hok
    rw [retryRequest]
    rw [retryGo_first_success op M d v k M 1 "undefined" le_rfl hk
      (fun j hj => by
        obtain ⟨e, he⟩ := hfail (j + 1) (by omega) (by omega)
        exact ⟨e, by rw [← he]; congr 1; omega⟩)
      (by rw [← hok]; congr 1; omega)]
    simp
  · intro e hop
    rw [retryRequest]
    rw [retryGo_always_fail op M d e hop M 1 "undefined" hM le_rfl]
    have h1 : 1 + M - 1 = M := by omega
    rw [h1]
    simp

/-- Witness for C2 at a concrete operation: fails on attempts 1 and 2,
succeeds on attempt 3, under a budget of 5 attempts with initial delay 1;
the retrier returns the success after sleeping 1 + 2 = 3 seconds over 3
invocations. -/
theorem retryRequest_spec_witness :
    retryRequest (fun i => if i < 3 then Except.error "boom" else Except.ok 42) 5 1 =
      ⟨Except.ok 42, ∑ i ∈ Finset.range 2, 1 * 2 ^ i, 3⟩ :=
  (retryRequest_spec (fun i => if i < 3 then Except.error "boom" else Except.ok 42)
    5 1 (by omega)).1 2 42 (by omega)
    (fun i h1 h2 => ⟨"boom", by interval_cases i <;> rfl⟩) (by rfl)

/-! ### Secret verification theorems -/

/-- C10: with no expected secret configured in the environment, secret
verification accepts every provided secret in development mode and rejects
every provided secret in any other mode. -/
theorem verifySecret_unconfigured_spec :
    (∀ provided, verifySecret none (some "development") provided = true) ∧
    (∀ provided nodeEnv, nodeEnv ≠ some "development" →
      verifySecret none nodeEnv provided = false) := by
  constructor
  · intro provided
    rfl
  · intro provided nodeEnv h
    simp [verifySecret, jsTruthyStr, h]

/-- Witness for C10: concrete secrets in development mode and in an
unset-mode environment. -/
theorem verifySecret_unconfigured_spec_witness :
    verifySecret none (some "development") "anything" = true ∧
    verifySecret none none "anything" = false :=
  ⟨verifySecret_unconfigured_spec.1 "anything",
   verifySecret_unconfigured_spec.2 "anything" none (by simp)⟩

/-! ## Repository-name canonicalization
(`githubManager.js`, `sanitizeRepoName`): lower-case, then globally replace
each character outside `[a-z0-9-]` with a dash, then collapse dash runs
(pattern `-+`) to a single dash, then strip one leading and one trailing
dash (pattern `^-|-$`), embedded stage by stage over the string's
character list. -/

/-- The character class `[a-z0-9]` (by code point: `a`–`z` is 97–122,
`0`–`9` is 48–57). -/
def isLowerAlnum (c : Char) : Bool :=
  (97 ≤ c.toNat && c.toNat ≤ 122) || (48 ≤ c.toNat && c.toNat ≤ 57)

/-- The character class `[a-z0-9-]` (`-` is code point 45). -/
def isRepoChar (c : Char) : Bool :=
  isLowerAlnum c || c = '-'

/-- Per-character `toLowerCase`: maps `A`–`Z` (65–90) to `a`–`z`, leaves
everything else alone. -/
def toLowerChar (c : Char) : Char :=
  if 65 ≤ c.toNat && c.toNat ≤ 90 then Char.ofNat (c.toNat + 32) else c

/-- One character of the global replacement of `[^a-z0-9-]` by a dash. -/
def classifyChar (c : Char) : Char :=
  if isRepoChar c then c else '-'

/-- The global replacement of `-+` by a dash: collapse every maximal run
of dashes to a single dash. -/
def collapseDashes : List Char → List Char
  | [] => []
  | [c] => [c]
  | a :: b :: rest =>
    if a = '-' && b = '-' then collapseDashes (b :: rest)
    else a :: collapseDashes (b :: rest)

/-- The `^-` half of the final replacement: drop one leading dash. -/
def dropLeadDash : List Char → List Char
  | [] => []
  | c :: rest => if c = '-' then rest else c :: rest

/-- The `-$` half of the final replacement: drop one trailing dash
(realized as dropping a leading dash of the reversed list). -/
def dropTrailDash (l : List Char) : List Char :=
  (dropLeadDash l.reverse).reverse

/-- The full canonicalization pipeline on a character list. -/
def sanitizeChars (l : List Char) : List Char :=
  dropTrailDash (dropLeadDash (collapseDashes (l.map (fun c => classifyChar (toLowerChar c)))))

/-- `sanitizeRepoName(taskName)`. -/
def sanitizeRepoName (s : String) : String :=
  String.mk (sanitizeChars s.data)

/-- The anchored pattern `^[a-z0-9]([a-z0-9-]*[a-z0-9])?$` as a decidable
test on a character list: nonempty, first and last characters in
`[a-z0-9]`, every character in `[a-z0-9-]`. -/
def matchesRepoNamePattern : List Char → Bool
  | [] => false
  | c :: cs =>
    isLowerAlnum c && (c :: cs).all isRepoChar &&
      isLowerAlnum ((c :: cs).getLast (by simp))

example : sanitizeRepoName "Hello World!" = "hello-world" := by decide
example : sanitizeRepoName "--a--b--" = "a-b" := by decide
example : sanitizeRepoName "!!!" = "" := by decide
example : sanitizeRepoName "" = "" := by decide

/-! ### Canonicalization lemmas -/

/-- No two adjacent dashes. -/
def NoDD (l : List Char) : Prop :=
  List.Chain' (fun a b => ¬(a = '-' ∧ b = '-')) l

lemma isRepoChar_classifyChar (c : Char) : isRepoChar (classifyChar c) = true := by
  rw [classifyChar]
  by_cases h : isRepoChar c = true
  · rw [if_pos h]; exact h
  · rw [if_neg h]; decide

lemma toLowerChar_fixed (c : Char) (h : isRepoChar c = true) : toLowerChar c = c := by
  unfold toLowerChar
  unfold isRepoChar isLowerAlnum at h
  simp only [Bool.or_eq_true, Bool.and_eq_true, decide_eq_true_eq] at h
  have hne : ¬(65 ≤ c.toNat ∧ c.toNat ≤ 90) := by
    rcases h with (⟨h1, h2⟩ | ⟨h1, h2⟩) | h1
    · omega
    · omega
    · subst h1; decide
  simp only [Bool.and_eq_true, decide_eq_true_eq]
  exact if_neg hne

lemma classifyChar_fixed (c : Char) (h : isRepoChar c = true) : classifyChar c = c := by
  unfold classifyChar
  rw [if_pos h]

lemma map_fixed {l : List Char} {f : Char → Char} (h : ∀ c ∈ l, f c = c) :
    l.map f = l := by
  induction l with
  | nil => rfl
  | cons a t ih =>
    simp only [List.map_cons, h a (by simp)]
    rw [ih (fun c hc => h c (by simp [hc]))]

lemma collapseDashes_cons (a : Char) (l : List Char) :
    ∃ t, collapseDashes (a :: l) = a :: t := by
  induction l generalizing a with
  | nil => exact ⟨[], rfl⟩
  | cons b rest ih =>
    rw [collapseDashes]
    by_cases h : (a = '-' && b = '-') = true
    · rw [if_pos h]
      obtain ⟨t, ht⟩ := ih b
      simp only [Bool.and_eq_true, decide_eq_true_eq] at h
      rw [ht, h.1, h.2]
      exact ⟨t, rfl⟩
    · rw [if_neg h]
      exact ⟨collapseDashes (b :: rest), rfl⟩

lemma collapseDashes_all {p : Char → Bool} :
    ∀ l : List Char, l.all p = true → (collapseDashes l).all p = true
  | [] => fun h => h
  | [c] => fun h => h
  | a :: b :: rest => fun h => by
    rw [collapseDashes]
    simp only [List.all_cons, Bool.and_eq_true] at h
    by_cases hd : (a = '-' && b = '-') = true
    · rw [if_pos hd]
      exact collapseDashes_all (b :: rest) (by simp [h.2.1, h.2.2])
    · rw [if_neg hd]
      simp only [List.all_cons, Bool.and_eq_true]
      exact ⟨h.1, collapseDashes_all (b :: rest) (by simp [h.2.1, h.2.2])⟩

lemma collapseDashes_noDD : ∀ l : List Char, NoDD (collapseDashes l)
  | [] => List.chain'_nil
  | [c] => List.chain'_singleton c
  | a :: b :: rest => by
    rw [collapseDashes]
    by_cases hd : (a = '-' && b = '-') = true
    · rw [if_pos hd]
      exact collapseDashes_noDD (b :: rest)
    · rw [if_neg hd]
      obtain ⟨t, ht⟩ := collapseDashes_cons b rest
      rw [ht]
      have htail : NoDD (b :: t) := ht ▸ collapseDashes_noDD (b :: rest)
      rw [NoDD, List.chain'_cons]
      refine ⟨?_, htail⟩
      intro hab
      simp only [Bool.and_eq_true, decide_eq_true_eq] at hd
      exact hd ⟨hab.1, hab.2⟩

lemma noDD_tail {a : Char} {l : List Char} (h : NoDD (a :: l)) : NoDD l :=
  List.Chain'.tail h

lemma dropLeadDash_all {p : Char → Bool} {l : List Char} (h : l.all p = true) :
    (dropLeadDash l).all p = true := by
  cases l with
  | nil => exact h
  | cons c rest =>
    rw [dropLeadDash]
    simp only [List.all_cons, Bool.and_eq_true] at h
    by_cases hc : c = '-'
    · rw [if_pos hc]; exact h.2
    · rw [if_neg hc]; simp [h.1, h.2]

lemma dropLeadDash_noDD {l : List Char} (h : NoDD l) : NoDD (dropLeadDash l) := by
  cases l with
  | nil => exact h
  | cons c rest =>
    rw [dropLeadDash]
    by_cases hc : c = '-'
    · rw [if_pos hc]; exact noDD_tail h
    · rw [if_neg hc]; exact h

lemma dropLeadDash_head {l : List Char} (h : NoDD l) :
    (dropLeadDash l).head? ≠ some '-' := by
  cases l with
  | nil => simp [dropLeadDash]
  | cons c rest =>
    rw [dropLeadDash]
    by_cases hc : c = '-'
    · rw [if_pos hc]
      cases rest with
      | nil => simp
      | cons b t =>
        rw [NoDD, List.chain'_cons] at h
        simp only [List.head?_cons, ne_eq, Option.some.injEq]
        intro hb
        exact h.1 ⟨hc, hb⟩
    · rw [if_neg hc]
      simp [hc]

lemma dropLeadDash_getLast {l : List Char} (h : l.getLast? ≠ some '-') :
    (dropLeadDash l).getLast? ≠ some '-' := by
  cases l with
  | nil => simp [dropLeadDash]
  | cons c rest =>
    rw [dropLeadDash]
    by_cases hc : c = '-'
    · rw [if_pos hc]
      cases rest with
      | nil =>
        subst hc
        simp at h
      | cons b t =>
        rw [List.getLast?_cons_cons] at h
        exact h
    · rw [if_neg hc]
      exact h

lemma dropLeadDash_of_head {l : List Char} (h : l.head? ≠ some '-') :
    dropLeadDash l = l := by
  cases l with
  | nil => rfl
  | cons c rest =>
    rw [dropLeadDash, if_neg]
    simpa using h

lemma noDD_reverse {l : List Char} (h : NoDD l) : NoDD l.reverse := by
  rw [NoDD, List.chain'_reverse]
  rw [NoDD] at h
  refine List.Chain'.imp ?_ h
  intro a b hab
  intro hba
  exact hab ⟨hba.2, hba.1⟩

lemma sanitizeChars_invariants (l : List Char) :
    (sanitizeChars l).all isRepoChar = true ∧ NoDD (sanitizeChars l) ∧
      (sanitizeChars l).head? ≠ some '-' ∧ (sanitizeChars l).getLast? ≠ some '-' := by
  rw [sanitizeChars]
  set m := l.map (fun c => classifyChar (toLowerChar c)) with hm
  have hall : m.all isRepoChar = true := by
    rw [hm, List.all_eq_true]
    intro c hc
    obtain ⟨c0, _, rfl⟩ := List.mem_map.mp hc
    exact isRepoChar_classifyChar (toLowerChar c0)
  set r1 := collapseDashes m with hr1
  have hall1 : r1.all isRepoChar = true := collapseDashes_all m hall
  have hnoDD1 : NoDD r1 := collapseDashes_noDD m
  set r2 := dropLeadDash r1 with hr2
  have hall2 : r2.all isRepoChar = true := dropLeadDash_all hall1
  have hnoDD2 : NoDD r2 := dropLeadDash_noDD hnoDD1
  have hhead2 : r2.head? ≠ some '-' := dropLeadDash_head hnoDD1
  refine ⟨?_, ?_, ?_, ?_⟩
  · rw [dropTrailDash, List.all_eq_true]
    intro c hc
    rw [List.mem_reverse] at hc
    have hsub : dropLeadDash r2.reverse ⊆ r2.reverse := by
      cases r2.reverse with
      | nil => simp [dropLeadDash]
      | cons a t =>
        rw [dropLeadDash]
        by_cases ha : a = '-'
        · rw [if_pos ha]; exact List.subset_cons_self a t
        · rw [if_neg ha]; exact List.Subset.refl _
    have hc2 : c ∈ r2.reverse := hsub hc
    rw [List.mem_reverse] at hc2
    exact (List.all_eq_true.mp hall2) c hc2
  · rw [dropTrailDash]
    exact noDD_reverse (dropLeadDash_noDD (noDD_reverse hnoDD2))
  · rw [dropTrailDash]
    rw [List.head?_reverse]
    apply dropLeadDash_getLast
    rw [List.getLast?_reverse]
    exact hhead2
  · rw [dropTrailDash]
    rw [List.getLast?_reverse]
    apply dropLeadDash_head
    exact noDD_reverse hnoDD2

lemma collapseDashes_fixed {l : List Char} (h : NoDD l) : collapseDashes l = l := by
  induction l with
  | nil => rfl
  | cons a t ih =>
    cases t with
    | nil => rfl
    | cons b rest =>
      rw [collapseDashes]
      rw [NoDD, List.chain'_cons] at h
      have hcond : ¬((a = '-' && b = '-') = true) := by
        simp only [Bool.and_eq_true, decide_eq_true_eq]
        exact h.1
      rw [if_neg hcond]
      rw [ih h.2]

lemma sanitizeChars_fixed {l : List Char}
    (hall : l.all isRepoChar = true) (hnoDD : NoDD l)
    (hhead : l.head? ≠ some '-') (hlast : l.getLast? ≠ some '-') :
    sanitizeChars l = l := by
  rw [sanitizeChars]
  have hmap : l.map (fun c => classifyChar (toLowerChar c)) = l := by
    apply map_fixed
    intro c hc
    have hrc : isRepoChar c = true := (List.all_eq_true.mp hall) c hc
    rw [toLowerChar_fixed c hrc, classifyChar_fixed c hrc]
  rw [hmap, collapseDashes_fixed hnoDD, dropLeadDash_of_head hhead, dropTrailDash]
  rw [dropLeadDash_of_head (by rw [List.head?_reverse]; exact hlast)]
  exact List.reverse_reverse l

lemma isLowerAlnum_of_repo {c : Char} (h1 : isRepoChar c = true) (h2 : c ≠ '-') :
    isLowerAlnum c = true := by
  rw [isRepoChar, Bool.or_eq_true] at h1
  rcases h1 with h | h
  · exact h
  · rw [decide_eq_true_eq] at h
    exact absurd h h2

/-- C5: repository-name canonicalization is total (it is a total Lean
function by construction), idempotent, and its output is either empty or
matches the anchored pattern of lower-case alphanumerics and interior
dashes. -/
theorem sanitizeRepoName_spec (s : String) :
    sanitizeRepoName (sanitizeRepoName s) = sanitizeRepoName s ∧
    (sanitizeRepoName s = "" ∨
      matchesRepoNamePattern (sanitizeRepoName s).data = true) := by
  obtain ⟨hall, hnoDD, hhead, hlast⟩ := sanitizeChars_invariants s.data
  constructor
  · show String.mk (sanitizeChars (sanitizeChars s.data)) = String.mk (sanitizeChars s.data)
    rw [sanitizeChars_fixed hall hnoDD hhead hlast]
  · cases hr : sanitizeChars s.data with
    | nil =>
      left
      show String.mk (sanitizeChars s.data) = String.mk []
      rw [hr]
    | cons c cs =>
      right
      show matchesRepoNamePattern (sanitizeChars s.data) = true
      rw [hr] at hall hhead hlast ⊢
      rw [matchesRepoNamePattern]
      have hc : isLowerAlnum c = true := by
        apply isLowerAlnum_of_repo ((List.all_eq_true.mp hall) c (by simp))
        intro hcc
        exact hhead (by rw [hcc]; rfl)
      have hlastmem : (c :: cs).getLast (by simp) ∈ c :: cs := List.getLast_mem _
      have hlastne : (c :: cs).getLast (by simp) ≠ '-' := by
        intro hg
        apply hlast
        rw [List.getLast?_eq_getLast (c :: cs) (by simp), hg]
      have hl : isLowerAlnum ((c :: cs).getLast (by simp)) = true :=
        isLowerAlnum_of_repo ((List.all_eq_true.mp hall) _ hlastmem) hlastne
      rw [hc, hall, hl]
      rfl

/-! ## GitHub Pages build polling
(`githubManager.js`, `waitForPagesDeployment`).  Each iteration of the loop
calls `octokit.repos.getPages`; the call either resolves with a status
string or rejects.  The outcome of the `i`-th poll (0-based) is supplied as
a function.  `setTimeout` waits are accumulated in seconds. -/

/-- Outcome of one `getPages` call: a resolved status string, or a
rejection (which the loop catches and treats like a not-built poll). -/
inductive PollOutcome where
  | ok (status : String)
  | err (msg : String)
deriving DecidableEq

/-- Result of `waitForPagesDeployment`: the boolean returned, the total
seconds slept, and the number of polls performed. -/
structure WaitResult where
  deployed : Bool
  sleepSeconds : Nat
  polls : Nat
deriving DecidableEq

/-- The polling loop.  A poll reporting status `built` ends the loop with
one extra 10-second wait and `true`; any other status (or a rejected call)
is followed by a 5-second wait; an exhausted budget is followed by one
extra 15-second safety wait and `false`. -/
def waitGo (poll : Nat → PollOutcome) : Nat → Nat → WaitResult
  | _, 0 => ⟨false, 15, 0⟩
  | i, fuel + 1 =>
    match poll i with
    | PollOutcome.ok s =>
      if s = "built" then ⟨true, 10, 1⟩
      else
        let r := waitGo poll (i + 1) fuel
        ⟨r.deployed, 5 + r.sleepSeconds, r.polls + 1⟩
    | PollOutcome.err _ =>
      let r := waitGo poll (i + 1) fuel
      ⟨r.deployed, 5 + r.sleepSeconds, r.polls + 1⟩

/-- `waitForPagesDeployment(repoName, expectedCommitSha, maxAttempts)`
(the commit sha is logged but never consulted; the default budget is 15).
The function never throws: every `getPages` rejection is caught inside the
loop. -/
def waitForPagesDeployment (poll : Nat → PollOutcome) (maxAttempts : Nat) : WaitResult :=
  waitGo poll 0 maxAttempts

lemma waitGo_ok {poll : Nat → PollOutcome} {i : Nat} {s : String} (fuel : Nat)
    (hp : poll i = PollOutcome.ok s) :
    waitGo poll i (fuel + 1) =
      if s = "built" then ⟨true, 10, 1⟩
      else ⟨(waitGo poll (i + 1) fuel).deployed,
            5 + (waitGo poll (i + 1) fuel).sleepSeconds,
            (waitGo poll (i + 1) fuel).polls + 1⟩ := by
  rw [waitGo, hp]

lemma waitGo_err {poll : Nat → PollOutcome} {i : Nat} {m : String} (fuel : Nat)
    (hp : poll i = PollOutcome.err m) :
    waitGo poll i (fuel + 1) =
      ⟨(waitGo poll (i + 1) fuel).deployed,
       5 + (waitGo poll (i + 1) fuel).sleepSeconds,
       (waitGo poll (i + 1) fuel).polls + 1⟩ := by
  rw [waitGo, hp]

lemma waitGo_polls_le (poll : Nat → PollOutcome) :
    ∀ fuel i, (waitGo poll i fuel).polls ≤ fuel := by
  intro fuel
  induction fuel with
  | zero => intro i; exact Nat.le_refl 0
  | succ fuel ih =>
    intro i
    cases hp : poll i with
    | ok s =>
      rw [waitGo_ok fuel hp]
      by_cases hs : s = "built"
      · rw [if_pos hs]
        show 1 ≤ fuel + 1
        omega
      · rw [if_neg hs]
        show (waitGo poll (i + 1) fuel).polls + 1 ≤ fuel + 1
        have := ih (i + 1)
        omega
    | err m =>
      rw [waitGo_err fuel hp]
      show (waitGo poll (i + 1) fuel).polls + 1 ≤ fuel + 1
      have := ih (i + 1)
      omega

lemma waitGo_no_built (poll : Nat → PollOutcome) :
    ∀ fuel i, (∀ j, j < fuel → poll (i + j) ≠ PollOutcome.ok "built") →
      waitGo poll i fuel = ⟨false, 5 * fuel + 15, fuel⟩ := by
  intro fuel
  induction fuel with
  | zero => intro i _; rfl
  | succ fuel ih =>
    intro i h
    have hrest : ∀ j, j < fuel → poll (i + 1 + j) ≠ PollOutcome.ok "built" := by
      intro j hj hcontra
      apply h (j + 1) (by omega)
      have hidx : i + (j + 1) = i + 1 + j := by omega
      rw [hidx]
      exact hcontra
    cases hp : poll i with
    | ok s =>
      have hs : s ≠ "built" := by
        intro hcontra
        exact h 0 (by omega) (by rw [Nat.add_zero, hp, hcontra])
      rw [waitGo_ok fuel hp, if_neg hs, ih (i + 1) hrest]
      show WaitResult.mk false (5 + (5 * fuel + 15)) (fuel + 1) = _
      rw [WaitResult.mk.injEq]
      refine ⟨rfl, by omega, rfl⟩
    | err m =>
      rw [waitGo_err fuel hp, ih (i + 1) hrest]
      show WaitResult.mk false (5 + (5 * fuel + 15)) (fuel + 1) = _
      rw [WaitResult.mk.injEq]
      refine ⟨rfl, by omega, rfl⟩

lemma waitGo_first_built (poll : Nat → PollOutcome) :
    ∀ k fuel i, k < fuel → poll (i + k) = PollOutcome.ok "built" →
      (∀ j, j < k → poll (i + j) ≠ PollOutcome.ok "built") →
      waitGo poll i fuel = ⟨true, 5 * k + 10, k + 1⟩ := by
  intro k
  induction k with
  | zero =>
    intro fuel i hk hbuilt _
    obtain ⟨fuel', rfl⟩ : ∃ f, fuel = f + 1 := ⟨fuel - 1, by omega⟩
    rw [Nat.add_zero] at hbuilt
    rw [waitGo_ok fuel' hbuilt, if_pos rfl]
  | succ k ih =>
    intro fuel i hk hbuilt hfirst
    obtain ⟨fuel', rfl⟩ : ∃ f, fuel = f + 1 := ⟨fuel - 1, by omega⟩
    have hrec : waitGo poll (i + 1) fuel' = ⟨true, 5 * k + 10, k + 1⟩ := by
      apply ih fuel' (i + 1) (by omega)
      · have hidx : i + 1 + k = i + (k + 1) := by omega
        rw [hidx]
        exact hbuilt
      · intro j hj hcontra
        apply hfirst (j + 1) (by omega)
        have hidx : i + (j + 1) = i + 1 + j := by omega
        rw [hidx]
        exact hcontra
    cases hp : poll i with
    | ok s =>
      have hs : s ≠ "built" := by
        intro hcontra
        exact hfirst 0 (by omega) (by rw [Nat.add_zero, hp, hcontra])
      rw [waitGo_ok fuel' hp, if_neg hs, hrec]
      show WaitResult.mk true (5 + (5 * k + 10)) (k + 1 + 1) = _
      rw [WaitResult.mk.injEq]
      refine ⟨rfl, by omega, rfl⟩
    | err m =>
      rw [waitGo_err fuel' hp, hrec]
      show WaitResult.mk true (5 + (5 * k + 10)) (k + 1 + 1) = _
      rw [WaitResult.mk.injEq]
      refine ⟨rfl, by omega, rfl⟩

/-- C1: the polling loop is total (it never throws, every rejection being
caught), polls at most `maxChecks` times, returns `true` after one extra
10-second wait exactly when some poll within the budget reports `built`
(having waited 5 seconds after each earlier poll), and otherwise returns
`false` after a 15-second safety wait. -/
theorem waitForPagesDeployment_spec (poll : Nat → PollOutcome) (maxChecks : Nat) :
    ((waitForPagesDeployment poll maxChecks).polls ≤ maxChecks) ∧
    ((waitForPagesDeployment poll maxChecks).deployed = true ↔
      ∃ i, i < maxChecks ∧ poll i = PollOutcome.ok "built") ∧
    (∀ k, k < maxChecks → poll k = PollOutcome.ok "built" →
      (∀ j, j < k → poll j ≠ PollOutcome.ok "built") →
      waitForPagesDeployment poll maxChecks = ⟨true, 5 * k + 10, k + 1⟩) ∧
    ((∀ i, i < maxChecks → poll i ≠ PollOutcome.ok "built") →
      waitForPagesDeployment poll maxChecks = ⟨false, 5 * maxChecks + 15, maxChecks⟩) := by
  have hfirst : ∀ k, k < maxChecks → poll k = PollOutcome.ok "built" →
      (∀ j, j < k → poll j ≠ PollOutcome.ok "built") →
      waitForPagesDeployment poll maxChecks = ⟨true, 5 * k + 10, k + 1⟩ := by
    intro k hk hb hf
    rw [waitForPagesDeployment]
    apply waitGo_first_built poll k maxChecks 0 hk
    · rw [Nat.zero_add]; exact hb
    · intro j hj
      rw [Nat.zero_add]
      exact hf j hj
  have hnone : (∀ i, i < maxChecks → poll i ≠ PollOutcome.ok "built") →
      waitForPagesDeployment poll maxChecks = ⟨false, 5 * maxChecks + 15, maxChecks⟩ := by
    intro h
    rw [waitForPagesDeployment]
    apply waitGo_no_built
    intro j hj
    rw [Nat.zero_add]
    exact h j hj
  refine ⟨waitGo_polls_le poll maxChecks 0, ?_, hfirst, hnone⟩
  constructor
  · intro hdep
    by_contra hno
    push_neg at hno
    have := hnone (fun i hi hb => hno i hi hb)
    rw [this] at hdep
    exact Bool.false_ne_true hdep
  · intro hex0
    obtain ⟨i, hi, hb⟩ := hex0
    have hex : ∃ k, poll k = PollOutcome.ok "built" := ⟨i, hb⟩
    classical
    have hkb : poll (Nat.find hex) = PollOutcome.ok "built" := Nat.find_spec hex
    have hkmin : ∀ j, j < Nat.find hex → poll j ≠ PollOutcome.ok "built" :=
      fun j hj => Nat.find_min hex hj
    have hklt : Nat.find hex < maxChecks := by
      have := Nat.find_min' hex hb
      omega
    rw [hfirst (Nat.find hex) hklt hkb hkmin]

/-- Witness for C1: with a concrete poll sequence whose third poll (index 2)
is the first to report `built`, a 15-check budget returns `true` after
5 + 5 + 10 = 20 seconds of waiting across 3 polls. -/
theorem waitForPagesDeployment_spec_witness :
    waitForPagesDeployment
      (fun i => if i = 2 then PollOutcome.ok "built" else PollOutcome.ok "building") 15 =
      ⟨true, 5 * 2 + 10, 2 + 1⟩ :=
  (waitForPagesDeployment_spec
    (fun i => if i = 2 then PollOutcome.ok "built" else PollOutcome.ok "building") 15).2.2.1
    2 (by omega) (by rfl)
    (fun j hj => by interval_cases j <;> simp)

/-! ## Static-hosting activation (`githubManager.js`, `enableGitHubPages`). -/

/-- Outcome of the `createPagesSite` platform call: resolved, or rejected
with an HTTP status code. -/
inductive PagesApiOutcome where
  | ok
  | err (status : Nat)
deriving DecidableEq

/-- What `enableGitHubPages` ends up logging/doing. -/
inductive PagesEnableLog where
  | enabled (confirmed : Bool)
  | alreadyEnabled
  | failedSwallowed (status : Nat)
deriving DecidableEq

/-- `enableGitHubPages(repoName)`: on success of `createPagesSite` it runs
`waitForPagesDeployment` with the default 15-check budget (result ignored);
on rejection, a 409 conflict is logged as "already enabled" and every other
status is logged and swallowed.  The `Except` result type mirrors the
function's ability to throw: the catch handler returns normally on every
path, so the error case is never produced. -/
def enableGitHubPages (createOutcome : PagesApiOutcome) (poll : Nat → PollOutcome) :
    Except String PagesEnableLog :=
  match createOutcome with
  | PagesApiOutcome.ok =>
    Except.ok (PagesEnableLog.enabled (waitForPagesDeployment poll 15).deployed)
  | PagesApiOutcome.err status =>
    if status = 409 then Except.ok PagesEnableLog.alreadyEnabled
    else Except.ok (PagesEnableLog.failedSwallowed status)

/-- C8: static-hosting activation never raises — for every platform
response it returns normally, an "already enabled" 409 conflict is treated
as success, and in particular a second call for the same identity (whose
creation attempt conflicts) does not raise. -/
theorem enableGitHubPages_spec (o : PagesApiOutcome) (poll : Nat → PollOutcome) :
    (∃ r, enableGitHubPages o poll = Except.ok r) ∧
    enableGitHubPages (PagesApiOutcome.err 409) poll =
      Except.ok PagesEnableLog.alreadyEnabled := by
  constructor
  · cases o with
    | ok => exact ⟨PagesEnableLog.enabled (waitForPagesDeployment poll 15).deployed, rfl⟩
    | err status =>
      by_cases h : status = 409
      · subst h
        exact ⟨PagesEnableLog.alreadyEnabled, rfl⟩
      · refine ⟨PagesEnableLog.failedSwallowed status, ?_⟩
        rw [enableGitHubPages, if_neg h]
  · rfl

/-! ## Round-2 update (`githubManager.js`, `updateRepo`).
The remote repository's content is a partial map from file path to file
content.  `updateRepo` removes any stale local copy, re-clones the remote
fresh, writes each entry of `files` in iteration order, commits, and pushes
back; the resulting remote content is the clone overlaid with the written
files. -/

/-- The `for (const [filename, content] of Object.entries(files))` write
loop: each entry overwrites the file at its path in the working copy. -/
def writeFiles : (String → Option String) → List (String × String) → String → Option String
  | dir, [] => dir
  | dir, (k, v) :: rest =>
    writeFiles (fun p => if p = k then some v else dir p) rest

/-- `updateRepo(repoName, files)` as a transformation of remote repository
content.  `staleLocal` is whatever local working copy was left over from an
earlier operation; the function deletes it (`fs.remove`) and clones the
remote fresh, so the result never depends on it. -/
def updateRepoContent (remote : String → Option String)
    (_staleLocal : String → Option String) (files : List (String × String)) :
    String → Option String :=
  let cloned := remote
  writeFiles cloned files

lemma writeFiles_not_mem (dir : String → Option String) :
    ∀ (files : List (String × String)) (p : String),
      p ∉ files.map Prod.fst → writeFiles dir files p = dir p := by
  intro files
  induction files generalizing dir with
  | nil => intro p _; rfl
  | cons kv rest ih =>
    intro p hp
    obtain ⟨k, v⟩ := kv
    simp only [List.map_cons, List.mem_cons, not_or] at hp
    rw [writeFiles]
    rw [ih _ p hp.2]
    rw [if_neg hp.1]

lemma lookup_append (a : String) (l₁ l₂ : List (String × String)) :
    List.lookup a (l₁ ++ l₂) =
      match List.lookup a l₁ with
      | some v => some v
      | none => List.lookup a l₂ := by
  induction l₁ with
  | nil => rfl
  | cons kv rest ih =>
    obtain ⟨k, v⟩ := kv
    rw [List.cons_append, List.lookup, List.lookup]
    by_cases h : a == k
    · rw [h]
    · rw [Bool.not_eq_true] at h
      rw [h, ih]

lemma writeFiles_lookup (dir : String → Option String) :
    ∀ (files : List (String × String)) (p : String),
      writeFiles dir files p =
        match List.lookup p files.reverse with
        | some v => some v
        | none => dir p := by
  intro files
  induction files generalizing dir with
  | nil => intro p; rfl
  | cons kv rest ih =>
    intro p
    obtain ⟨k, v⟩ := kv
    rw [writeFiles, ih, List.reverse_cons, lookup_append]
    by_cases h : p = k
    · have hb : (p == k) = true := beq_iff_eq.mpr h
      cases List.lookup p rest.reverse with
      | some w => rfl
      | none => simp [List.lookup, hb, h]
    · have hb : (p == k) = false := beq_eq_false_iff_ne.mpr h
      cases List.lookup p rest.reverse with
      | some w => rfl
      | none => simp [List.lookup, hb, h]

/-- C4: an update writes exactly the files present in the file set into a
fresh clone of the remote (independent of any stale local copy) and leaves
every other previously-published file unchanged; in particular a file set
containing only `index.html` leaves a previously-published `README.md`
untouched. -/
theorem updateRepo_frame_spec :
    (∀ remote staleLocal files p, p ∉ files.map Prod.fst →
      updateRepoContent remote staleLocal files p = remote p) ∧
    (∀ remote stale₁ stale₂ files,
      updateRepoContent remote stale₁ files = updateRepoContent remote stale₂ files) ∧
    (∀ remote staleLocal files p v, List.lookup p files.reverse = some v →
      updateRepoContent remote staleLocal files p = some v) ∧
    (∀ remote staleLocal html readme, remote "README.md" = some readme →
      updateRepoContent remote staleLocal [("index.html", html)] "README.md" = some readme ∧
      updateRepoContent remote staleLocal [("index.html", html)] "index.html" = some html) := by
  refine ⟨?_, ?_, ?_, ?_⟩
  · intro remote staleLocal files p hp
    exact writeFiles_not_mem remote files p hp
  · intro remote stale₁ stale₂ files
    rfl
  · intro remote staleLocal files p v hv
    show writeFiles remote files p = some v
    rw [writeFiles_lookup, hv]
  · intro remote staleLocal html readme hr
    constructor
    · show writeFiles remote [("index.html", html)] "README.md" = some readme
      rw [writeFiles_not_mem remote [("index.html", html)] "README.md" (by simp)]
      exact hr
    · show writeFiles remote [("index.html", html)] "index.html" = some html
      rw [writeFiles_lookup]
      rfl

/-- Witness for C4 at a concrete remote repository holding a `README.md`
and an old `index.html`: updating with a file set containing only
`index.html` rewrites that file and leaves `README.md` untouched. -/
theorem updateRepo_frame_spec_witness :
    updateRepoContent
      (fun p => if p = "README.md" then some "# readme" else
        if p = "index.html" then some "old page" else none)
      (fun _ => none) [("index.html", "new page")] "README.md" = some "# readme" ∧
    updateRepoContent
      (fun p => if p = "README.md" then some "# readme" else
        if p = "index.html" then some "old page" else none)
      (fun _ => none) [("index.html", "new page")] "index.html" = some "new page" :=
  updateRepo_frame_spec.2.2.2
    (fun p => if p = "README.md" then some "# readme" else
      if p = "index.html" then some "old page" else none)
    (fun _ => none) "new page" "# readme" (by simp)

/-! ## Evaluation notifier (`taskHandler.js`, `notifyEvaluationServer`).
The per-attempt operation POSTs the payload with `axios.post` and then
checks `response.status !== 200`.  `axios` resolves a response exactly when
its status passes the default `validateStatus` (2xx) and rejects otherwise;
the explicit check then re-raises for any resolved status other than 200. -/

/-- The HTTP client call: resolves for a 2xx status (default
`validateStatus`), rejects otherwise. -/
def axiosPostStatus (status : Nat) : Except String Nat :=
  if 200 ≤ status ∧ status < 300 then Except.ok status
  else Except.error ("Request failed with status code " ++ toString status)

/-- One attempt of the notifier: the POST, followed by the explicit
`response.status !== 200` check that throws
`Evaluation server returned status N`. -/
def notifyAttempt (status : Nat) : Except String Nat :=
  match axiosPostStatus status with
  | Except.error e => Except.error e
  | Except.ok s =>
    if s ≠ 200 then Except.error ("Evaluation server returned status " ++ toString s)
    else Except.ok s

/-- `parseInt(env) || d`: an unset variable (`NaN`) and an explicit `0`
are both falsy and fall back to the default. -/
def envNatOrDefault (env : Option Nat) (d : Nat) : Nat :=
  match env with
  | none => d
  | some n => if n = 0 then d else n

/-- `maxRetries` used by the notifier (`MAX_RETRIES`, default 5). -/
def notifyMaxRetries (env : Option Nat) : Nat := envNatOrDefault env 5

/-- `initialDelay` used by the notifier (`INITIAL_RETRY_DELAY`, default 1). -/
def notifyInitialDelay (env : Option Nat) : Nat := envNatOrDefault env 1

/-- `notifyEvaluationServer(evaluationUrl, data)`: the per-attempt
operation run through the backoff retrier with the configured attempt
budget and initial delay.  `statuses i` is the HTTP status the POST of
attempt `i` would obtain. -/
def notifyEvaluationServer (maxRetriesEnv initialDelayEnv : Option Nat)
    (statuses : Nat → Nat) : RetryResult Nat :=
  retryRequest (fun i => notifyAttempt (statuses i))
    (notifyMaxRetries maxRetriesEnv) (notifyInitialDelay initialDelayEnv)

/-- C7 counterexample: a 201 response is a 2xx status, yet the per-attempt
operation raises instead of treating it as success — the claim that every
2xx response is treated as success is false on the code, which accepts
exactly status 200. -/
theorem notifyAttempt_2xx_counterexample :
    (200 ≤ 201 ∧ 201 < 300) ∧
    notifyAttempt 201 = Except.error "Evaluation server returned status 201" := by
  constructor
  · omega
  · rfl

/-- C7 amended: the per-attempt operation returns normally if and only if
the POST response has status exactly 200; every non-2xx response is turned
into a raised error by the HTTP client, every 2xx response other than 200
is turned into a raised error by the explicit status check, and the
notifier's retrier defaults are 5 attempts with a 1-unit initial delay. -/
theorem notifyAttempt_spec (status : Nat) :
    ((notifyAttempt status).isOk = true ↔ status = 200) ∧
    (¬(200 ≤ status ∧ status < 300) →
      notifyAttempt status =
        Except.error ("Request failed with status code " ++ toString status)) ∧
    (200 ≤ status ∧ status < 300 → status ≠ 200 →
      notifyAttempt status =
        Except.error ("Evaluation server returned status " ++ toString status)) ∧
    notifyMaxRetries none = 5 ∧ notifyInitialDelay none = 1 := by
  refine ⟨?_, ?_, ?_, rfl, rfl⟩
  · constructor
    · intro hok
      by_contra hne
      rw [notifyAttempt, axiosPostStatus] at hok
      by_cases h2 : 200 ≤ status ∧ status < 300
      · rw [if_pos h2] at hok
        simp only [if_pos hne] at hok
        exact Bool.false_ne_true hok
      · rw [if_neg h2] at hok
        exact Bool.false_ne_true hok
    · intro h
      subst h
      rfl
  · intro h2
    rw [notifyAttempt, axiosPostStatus, if_neg h2]
  · intro h2 hne
    rw [notifyAttempt, axiosPostStatus, if_pos h2]
    simp only [if_pos hne]

/-- Witness for C7's amended theorem: a 404 response raises the client
error. -/
theorem notifyAttempt_spec_witness :
    notifyAttempt 404 = Except.error ("Request failed with status code " ++ toString 404) :=
  (notifyAttempt_spec 404).2.1 (by omega)

/-! ## Task handler (`taskHandler.js`).
The incoming request body, the two process-wide `Map`s (`processedTasks`
keyed by `` `${repoName}-${round}` `` and `repoTracking` keyed by email),
and the synchronous part of `handleTask` (validation, secret check, name
resolution, duplicate detection, acceptance) are embedded below.  A `Map`
is an association list whose most recent binding comes first; `Map.set` is
modelled by prepending, `Map.get`/`Map.has` by `List.lookup`.  The
fire-and-forget call to `processTaskAsync` is recorded as the optional
repository name handed to it. -/

/-- The task request body.  `task` is `Option`al: `none` models a body
without the `task` key (rejected by field validation); the remaining
required fields are modelled as always present. -/
structure TaskRequest where
  email : String
  secret : String
  task : Option String
  round : Nat
  nonce : String
  brief : String
  checks : List String
  evaluationUrl : String
  attachments : List String
deriving DecidableEq

/-- Split a character list at every occurrence of a separator (the
semantics of `String.split` with a one-character separator). -/
def splitOnChar (sep : Char) : List Char → List (List Char)
  | [] => [[]]
  | c :: rest =>
    if c = sep then [] :: splitOnChar sep rest
    else
      match splitOnChar sep rest with
      | [] => [[c]]
      | h :: t => (c :: h) :: t

/-- The email pattern: one or more characters that are neither whitespace
nor `@`, then `@`, then the same class, then a dot, then the same class —
equivalently, exactly one `@`, nonempty whitespace-free sides, and a dot
strictly inside the domain part. -/
def emailRegexTest (s : String) : Bool :=
  match splitOnChar '@' s.data with
  | [lpart, dpart] =>
    !lpart.isEmpty && lpart.all (fun c => !c.isWhitespace) &&
      dpart.all (fun c => !c.isWhitespace) &&
      (dpart.drop 1).dropLast.contains '.'
  | _ => false

/-- `validateRequest(request)`: field presence (only `task` can be absent
in this embedding), `round ∈ {1, 2}`, and the email format check. -/
def validateRequest (r : TaskRequest) : Except String Unit :=
  if r.task.isNone then Except.error "Missing required field: task"
  else if r.round ≠ 1 ∧ r.round ≠ 2 then Except.error "Round must be 1 or 2"
  else if emailRegexTest r.email = false then Except.error "Invalid email format"
  else Except.ok ()

/-- The relevant process environment. -/
structure Env where
  userSecret : Option String
  nodeEnv : Option String

/-- `verifyRequestSecret` delegates to `verifySecret` (its try/catch only
converts an exception into `false`; `verifySecret` itself is total). -/
def verifyRequestSecret (env : Env) (provided : String) : Bool :=
  verifySecret env.userSecret env.nodeEnv provided

/-- The JS condition `!task || !task.trim()`: key absent, or value empty
or whitespace-only (a string trims to empty exactly when every character
is whitespace). -/
def taskBlank : Option String → Bool
  | none => true
  | some s => s.data.all Char.isWhitespace

/-- `determineRepoName(request)`: round 1 requires a non-blank task name
and records `email → task` in the tracking map; round 2 uses the provided
task name when non-blank, otherwise the tracked name for the email,
otherwise fails. -/
def determineRepoName (r : TaskRequest) (repoTracking : List (String × String)) :
    Except String (String × List (String × String)) :=
  if r.round = 1 then
    if taskBlank r.task then Except.error "Task name is required for Round 1"
    else
      Except.ok (r.task.getD "", (r.email, r.task.getD "") :: repoTracking)
  else
    if taskBlank r.task = false then Except.ok (r.task.getD "", repoTracking)
    else
      match List.lookup r.email repoTracking with
      | some tracked => Except.ok (tracked, repoTracking)
      | none =>
        Except.error ("Cannot determine repository name for Round 2. " ++
          "Task field is empty and no previous repository found for email " ++
          r.email ++ ". Please provide the task/repository name in the request.")

/-- The duplicate-detection key `` `${repoName}-${round}` ``. -/
def taskKey (repoName : String) (round : Nat) : String :=
  repoName ++ "-" ++ toString round

/-- The two process-wide tracking maps. -/
structure HState where
  processedTasks : List (String × String)
  repoTracking : List (String × String)
deriving DecidableEq

/-- The synchronous part of `handleTask(request)`: validate, verify the
secret, resolve the repository name, detect duplicates, and either
short-circuit with `{status:duplicate}` or mark the key processing, start
the background work, and acknowledge with `{status:accepted}`.  The result
carries the response status, the updated maps, and the repository name
handed to `processTaskAsync` (`none` when no background work starts). -/
def handleTask (env : Env) (r : TaskRequest) (st : HState) :
    Except String (String × HState × Option String) :=
  match validateRequest r with
  | Except.error e => Except.error e
  | Except.ok _ =>
    if verifyRequestSecret env r.secret = false then Except.error "Invalid secret"
    else
      match determineRepoName r st.repoTracking with
      | Except.error e => Except.error e
      | Except.ok (repoName, tracking) =>
        if (List.lookup (taskKey repoName r.round) st.processedTasks).isSome then
          Except.ok ("duplicate", ⟨st.processedTasks, tracking⟩, none)
        else
          Except.ok ("accepted",
            ⟨(taskKey repoName r.round, "processing") :: st.processedTasks, tracking⟩,
            some repoName)

/-- The repository actually targeted by the background work: both the
round-1 path (`createAndDeployRepo`) and the round-2 path
(`processTaskAsync` before `updateRepo`) first apply `sanitizeRepoName`
to the resolved name. -/
def publishTargetRepo (repoName : String) : String :=
  sanitizeRepoName repoName

/-- C6: repository-name resolution — a round-1 request with a blank or
missing task name fails (and `handleTask` then returns an error before any
background work, hence before any network call); a round-1 request with a
non-blank task name stores the `email → task` mapping; a round-2 request
uses the supplied task name when non-blank, falls back to the stored
mapping otherwise, and fails with a descriptive error when no mapping
exists. -/
theorem determineRepoName_spec :
    (∀ (r : TaskRequest) tr, r.round = 1 → taskBlank r.task = true →
      determineRepoName r tr = Except.error "Task name is required for Round 1") ∧
    (∀ (env : Env) (r : TaskRequest) st, r.round = 1 → taskBlank r.task = true →
      (handleTask env r st).isOk = false) ∧
    (∀ (r : TaskRequest) tr t, r.round = 1 → r.task = some t →
      taskBlank r.task = false →
      determineRepoName r tr = Except.ok (t, (r.email, t) :: tr)) ∧
    (∀ (r : TaskRequest) tr t, r.round = 2 → r.task = some t →
      taskBlank r.task = false →
      determineRepoName r tr = Except.ok (t, tr)) ∧
    (∀ (r : TaskRequest) tr t0, r.round = 2 → taskBlank r.task = true →
      List.lookup r.email tr = some t0 →
      determineRepoName r tr = Except.ok (t0, tr)) ∧
    (∀ (r : TaskRequest) tr, r.round = 2 → taskBlank r.task = true →
      List.lookup r.email tr = none →
      determineRepoName r tr =
        Except.error ("Cannot determine repository name for Round 2. " ++
          "Task field is empty and no previous repository found for email " ++
          r.email ++ ". Please provide the task/repository name in the request.")) := by
  have hblank : ∀ (r : TaskRequest) tr, r.round = 1 → taskBlank r.task = true →
      determineRepoName r tr = Except.error "Task name is required for Round 1" := by
    intro r tr h1 hb
    rw [determineRepoName, if_pos h1, if_pos hb]
  refine ⟨hblank, ?_, ?_, ?_, ?_, ?_⟩
  · intro env r st h1 hb
    rw [handleTask]
    cases hv : validateRequest r with
    | error e => rfl
    | ok u =>
      by_cases hs : verifyRequestSecret env r.secret = false
      · rw [if_pos hs]
        rfl
      · rw [if_neg hs]
        rw [hblank r st.repoTracking h1 hb]
        rfl
  · intro r tr t h1 ht hb
    rw [determineRepoName, if_pos h1, hb]
    rw [ht]
    rfl
  · intro r tr t h2 ht hb
    have hne : ¬(r.round = 1) := by rw [h2]; omega
    rw [determineRepoName, if_neg hne, if_pos hb]
    rw [ht]
    rfl
  · intro r tr t0 h2 hb hl
    have hne : ¬(r.round = 1) := by rw [h2]; omega
    have hbne : ¬(taskBlank r.task = false) := by rw [hb]; simp
    rw [determineRepoName, if_neg hne, if_neg hbne, hl]
  · intro r tr h2 hb hl
    have hne : ¬(r.round = 1) := by rw [h2]; omega
    have hbne : ¬(taskBlank r.task = false) := by rw [hb]; simp
    rw [determineRepoName, if_neg hne, if_neg hbne, hl]

/-- Witness for C6 at concrete requests: a blank round-1 task fails, a
non-blank round-1 task is tracked, and a blank round-2 task resolves to
the tracked name. -/
theorem determineRepoName_spec_witness :
    determineRepoName ⟨"a@b.c", "s", some "", 1, "n", "b", [], "u", []⟩ [] =
      Except.error "Task name is required for Round 1" ∧
    (handleTask ⟨some "s", none⟩ ⟨"a@b.c", "s", some "", 1, "n", "b", [], "u", []⟩
      ⟨[], []⟩).isOk = false ∧
    determineRepoName ⟨"a@b.c", "s", some "my-task", 1, "n", "b", [], "u", []⟩ [] =
      Except.ok ("my-task", [("a@b.c", "my-task")]) ∧
    determineRepoName ⟨"a@b.c", "s", some "", 2, "n", "b", [], "u", []⟩
        [("a@b.c", "my-task")] =
      Except.ok ("my-task", [("a@b.c", "my-task")]) :=
  ⟨determineRepoName_spec.1 ⟨"a@b.c", "s", some "", 1, "n", "b", [], "u", []⟩ [] rfl rfl,
   determineRepoName_spec.2.1 ⟨some "s", none⟩
     ⟨"a@b.c", "s", some "", 1, "n", "b", [], "u", []⟩ ⟨[], []⟩ rfl rfl,
   determineRepoName_spec.2.2.1 ⟨"a@b.c", "s", some "my-task", 1, "n", "b", [], "u", []⟩
     [] "my-task" rfl rfl rfl,
   determineRepoName_spec.2.2.2.2.1 ⟨"a@b.c", "s", some "", 2, "n", "b", [], "u", []⟩
     [("a@b.c", "my-task")] "my-task" rfl rfl rfl⟩

/-- C3: two validated, authenticated requests resolving to the same
`(repositoryName, round)` key, the second submitted while the first is
still tracked as processing — the first is acknowledged as accepted and
starts background work, the second is acknowledged as duplicate, starts no
background work, and leaves the processed-task table unchanged. -/
theorem duplicate_submission_spec
    (env : Env) (r1 r2 : TaskRequest) (st0 : HState)
    (n1 n2 : String) (t1 t2 : List (String × String))
    (hv1 : validateRequest r1 = Except.ok ())
    (hs1 : verifyRequestSecret env r1.secret = true)
    (hd1 : determineRepoName r1 st0.repoTracking = Except.ok (n1, t1))
    (hfresh : List.lookup (taskKey n1 r1.round) st0.processedTasks = none)
    (hv2 : validateRequest r2 = Except.ok ())
    (hs2 : verifyRequestSecret env r2.secret = true)
    (hd2 : determineRepoName r2 t1 = Except.ok (n2, t2))
    (hkey : taskKey n2 r2.round = taskKey n1 r1.round) :
    handleTask env r1 st0 =
      Except.ok ("accepted",
        ⟨(taskKey n1 r1.round, "processing") :: st0.processedTasks, t1⟩, some n1) ∧
    handleTask env r2
        ⟨(taskKey n1 r1.round, "processing") :: st0.processedTasks, t1⟩ =
      Except.ok ("duplicate",
        ⟨(taskKey n1 r1.round, "processing") :: st0.processedTasks, t2⟩, none) := by
  constructor
  · unfold handleTask
    rw [hv1]
    have hs1' : ¬(verifyRequestSecret env r1.secret = false) := by rw [hs1]; simp
    rw [if_neg hs1']
    rw [hd1]
    simp only [hfresh, Option.isSome_none, Bool.false_eq_true, if_false]
  · unfold handleTask
    rw [hv2]
    have hs2' : ¬(verifyRequestSecret env r2.secret = false) := by rw [hs2]; simp
    rw [if_neg hs2']
    have hd2' : determineRepoName r2
        (HState.mk ((taskKey n1 r1.round, "processing") :: st0.processedTasks) t1).repoTracking =
        Except.ok (n2, t2) := hd2
    rw [hd2']
    simp only [hkey, List.lookup, beq_self_eq_true, Option.isSome_some, if_true]

/-- Witness for C3: the same concrete round-1 request submitted twice,
starting from empty tracking tables. -/
theorem duplicate_submission_spec_witness :
    handleTask ⟨some "sekrit", none⟩
        ⟨"a@b.c", "sekrit", some "hello", 1, "n", "b", [], "u", []⟩ ⟨[], []⟩ =
      Except.ok ("accepted", ⟨[("hello-1", "processing")], [("a@b.c", "hello")]⟩,
        some "hello") ∧
    handleTask ⟨some "sekrit", none⟩
        ⟨"a@b.c", "sekrit", some "hello", 1, "n", "b", [], "u", []⟩
        ⟨[("hello-1", "processing")], [("a@b.c", "hello")]⟩ =
      Except.ok ("duplicate",
        ⟨[("hello-1", "processing")], [("a@b.c", "hello"), ("a@b.c", "hello")]⟩, none) :=
  duplicate_submission_spec ⟨some "sekrit", none⟩
    ⟨"a@b.c", "sekrit", some "hello", 1, "n", "b", [], "u", []⟩
    ⟨"a@b.c", "sekrit", some "hello", 1, "n", "b", [], "u", []⟩
    ⟨[], []⟩ "hello" "hello" [("a@b.c", "hello")]
    [("a@b.c", "hello"), ("a@b.c", "hello")]
    rfl rfl rfl rfl rfl rfl rfl rfl

/-- C9: duplicate detection and the email-to-name tracking are keyed by
the raw resolved task string, canonicalization being applied only inside
the publish path — two round-1 requests whose task names differ as raw
strings but canonicalize identically are both accepted (the second is not
reported as a duplicate), and both background publishes target the same
canonical remote repository. -/
theorem raw_key_duplicate_spec :
    handleTask ⟨some "sekrit", none⟩
        ⟨"a@b.c", "sekrit", some "Hello World!", 1, "n1", "brief", ["x"], "https://e.test/cb", []⟩
        ⟨[], []⟩ =
      Except.ok ("accepted",
        ⟨[("Hello World!-1", "processing")], [("a@b.c", "Hello World!")]⟩,
        some "Hello World!") ∧
    handleTask ⟨some "sekrit", none⟩
        ⟨"a@b.c", "sekrit", some "hello-world", 1, "n2", "brief", ["x"], "https://e.test/cb", []⟩
        ⟨[("Hello World!-1", "processing")], [("a@b.c", "Hello World!")]⟩ =
      Except.ok ("accepted",
        ⟨[("hello-world-1", "processing"), ("Hello World!-1", "processing")],
         [("a@b.c", "hello-world"), ("a@b.c", "Hello World!")]⟩,
        some "hello-world") ∧
    publishTargetRepo "Hello World!" = publishTargetRepo "hello-world" ∧
    publishTargetRepo "Hello World!" = "hello-world" :=
  ⟨rfl, rfl, rfl, rfl⟩
